import Mathlib

/-!
# Package `log` of hmage/golibs: trace emission and goroutine identification

A shallow embedding of `src/log/log.go`.  Go strings and byte slices are lists
of bytes; the package-level variables, the bytes written to the standard error
stream and the calls handed to the standard logger form an explicit state.
A run-time panic (a slice bound out of range) is the result `none`.

The functions of the Go standard library that `log.go` calls (`bytes.TrimPrefix`,
`bytes.IndexByte`, `strconv.ParseUint`, `path.Base`, the `%d` verb of `fmt`) are
embedded from their Go sources, specialised to the constant arguments used here.
What the Go runtime and `fmt.Sprintf` supply at a call (the stack dump, the
program counters on the stack, the function names the runtime reports for them,
the formatted message) is an explicit environment.
-/

namespace GoLog

/-! ## Bytes and byte strings -/

/-- A Go string or byte slice: the list of its bytes, each a natural number
below 256. -/
abbrev Bytes := List Nat

/-- The bytes of an ASCII string literal. -/
def bytesOf (s : String) : Bytes := s.data.map Char.toNat

/-- Slice expression `b[:hi]`.  Go panics unless `0 <= hi <= cap(b)`; every bound
used in `log.go` is at most `len(b)`, which is the upper bound checked here. -/
def sliceTo (b : Bytes) (hi : Int) : Option (Bytes) :=
  if 0 ≤ hi ∧ hi ≤ (b.length : Int) then some (b.take hi.toNat) else none

/-! ## Package `bytes` -/

/-- Go `bytes.HasPrefix(s, p)`: `len(s) >= len(p) && Equal(s[0:len(p)], p)`. -/
def HasPrefix (s p : Bytes) : Bool :=
  decide (p.length ≤ s.length) && decide (s.take p.length = p)

/-- Go `bytes.TrimPrefix(s, p)`: `s` without the leading `p`, or `s` itself. -/
def TrimPrefix (s p : Bytes) : Bytes :=
  if HasPrefix s p then s.drop p.length else s

/-- The loop of `bytes.IndexByte`, at position `i` of the original slice. -/
def indexByteFrom : Bytes → Nat → Nat → Int
  | [], _, _ => -1
  | x :: xs, c, i => if x = c then (i : Int) else indexByteFrom xs c (i + 1)

/-- Go `bytes.IndexByte(b, c)`: the index of the first `c` in `b`, or `-1`. -/
def IndexByte (b : Bytes) (c : Nat) : Int := indexByteFrom b c 0

/-- Go `bytealg.LastIndexByteString(s, c)`: the scan runs from the last byte
down to the first and returns the index of the first hit, or `-1`. -/
def LastIndexByte (s : Bytes) (c : Nat) : Int :=
  let j := IndexByte s.reverse c
  if j < 0 then -1 else (s.length : Int) - 1 - j

/-! ## Package `strconv` -/

/-- The error kinds of `strconv.NumError`. -/
inductive NumError
  | ErrSyntax
  | ErrRange
  deriving DecidableEq, Repr

/-- Largest `uint64`. -/
def maxUint64 : Nat := 2 ^ 64 - 1

/-- Go `strconv.lower(c)`: `c | ('x' - 'X')`. -/
def lower (c : Nat) : Nat := c ||| 32

/-- The digit value `ParseUint` reads from one byte, or `none` for the
`default` case of its switch (the underscore case needs base 0). -/
def digitVal (c : Nat) : Option Nat :=
  if 48 ≤ c ∧ c ≤ 57 then some (c - 48)
  else if 97 ≤ lower c ∧ lower c ≤ 122 then some (lower c - 97 + 10)
  else none

/-- The loop of `strconv.ParseUint` for base 10: `n` is the `uint64` accumulator,
`cutoff` the smallest number with `cutoff*10 > maxUint64`, `maxVal` the largest
value of the bit size. -/
def parseUintLoop (cutoff maxVal : Nat) : Bytes → Nat → Nat × Option NumError
  | [], n => (n, none)
  | c :: cs, n =>
    match digitVal c with
    | none => (0, some NumError.ErrSyntax)
    | some d =>
      if d ≥ 10 then (0, some NumError.ErrSyntax)
      else if n ≥ cutoff then (maxVal, some NumError.ErrRange)
      else
        let n10 := (n * 10) % 2 ^ 64
        let n1 := (n10 + d) % 2 ^ 64
        if n1 < n10 ∨ n1 > maxVal then (maxVal, some NumError.ErrRange)
        else parseUintLoop cutoff maxVal cs n1

/-- Go `strconv.ParseUint(s, 10, 64)`: the value and the error, if any. -/
def ParseUint (s : Bytes) : Nat × Option NumError :=
  if s = [] then (0, some NumError.ErrSyntax)
  else parseUintLoop (maxUint64 / 10 + 1) maxUint64 s 0

/-! ## Package `path` -/

/-- Go `path.Base(p)`: the last element of a slash-separated path. -/
def Base (p : Bytes) : Bytes :=
  if p = [] then bytesOf "."
  else
    -- strip trailing slashes
    let p := (p.reverse.dropWhile (fun c => c == 47)).reverse
    -- find the last element
    let i := LastIndexByte p 47
    let p := if i ≥ 0 then p.drop (i + 1).toNat else p
    -- if empty now, it had only slashes
    if p = [] then bytesOf "/" else p

/-! ## Package `fmt`: the verb `%d` on a `uint64` -/

/-- The loop of `fmt.fmtInteger` for base 10: digits are written from the right
end of the buffer while `u >= 10`, then the leading digit. -/
def fmtDecimalLoop : Nat → Nat → Bytes → Bytes
  | 0, u, buf => (48 + u) :: buf
  | fuel + 1, u, buf =>
    if u ≥ 10 then
      let next := u / 10
      fmtDecimalLoop fuel next ((48 + u - next * 10) :: buf)
    else (48 + u) :: buf

/-- The text `fmt` prints for a `uint64` under `%d`. -/
def fmtUint64 (u : Nat) : Bytes := fmtDecimalLoop u u []

/-! ## The environment and the state of a call -/

/-- An argument passed in a `...interface{}` list. -/
inductive Value
  | int (i : Int)
  | str (s : Bytes)
  deriving DecidableEq

/-- What the Go runtime and `fmt` supply to one call of `Tracef`. -/
structure Env where
  /-- the text `runtime.Stack` has for the calling goroutine -/
  stackDump : Bytes
  /-- the return program counters on the stack of the calling goroutine, innermost
  first, as `runtime.Callers` walks them: entry 0 is the frame of `runtime.Callers`
  itself, entry 1 the frame of its caller `Tracef`, entry 2 the frame below it -/
  frames : List Nat
  /-- the function `runtime.FuncForPC` followed by the name of the `*Func` it
  returns; `none` is the nil pointer -/
  funcForPC : Nat → Option Bytes
  /-- the function `fmt.Sprintf` -/
  sprintf : Bytes → List Value → Bytes

/-- A call handed to the standard logger (package `log` of the Go library). -/
inductive LogCall
  | Print (v : List Value)
  | Printf (format : Bytes) (v : List Value)
  | Println (v : List Value)
  | Fatal (v : List Value)
  | Fatalf (format : Bytes) (v : List Value)
  deriving DecidableEq

/-- The package-level variables and the observable output. -/
structure State where
  /-- `var Verbose` -/
  Verbose : Bool
  /-- `var TraceToStderr` -/
  TraceToStderr : Bool
  /-- the bytes written to `os.Stderr` by this package itself -/
  stderr : Bytes
  /-- the calls made to the standard logger, oldest first -/
  stdlog : List LogCall
  /-- the exit status once the process has been terminated -/
  exited : Option Nat
  deriving DecidableEq

/-- The state of a freshly loaded package: both flags are false. -/
def State.init : State :=
  { Verbose := false, TraceToStderr := false, stderr := [], stdlog := [], exited := none }

/-! ## The standard logger and `fmt.Fprint` -/

/-- Standard logger `log.Print(v...)`. -/
def stdPrint (v : List Value) (st : State) : State :=
  { st with stdlog := st.stdlog ++ [LogCall.Print v] }

/-- Standard logger `log.Printf(format, v...)`. -/
def stdPrintf (format : Bytes) (v : List Value) (st : State) : State :=
  { st with stdlog := st.stdlog ++ [LogCall.Printf format v] }

/-- Standard logger `log.Println(v...)`. -/
def stdPrintln (v : List Value) (st : State) : State :=
  { st with stdlog := st.stdlog ++ [LogCall.Println v] }

/-- Standard logger `log.Fatal(v...)`: prints, then `os.Exit(1)`. -/
def stdFatal (v : List Value) (st : State) : State :=
  { st with stdlog := st.stdlog ++ [LogCall.Fatal v], exited := some 1 }

/-- Standard logger `log.Fatalf(format, v...)`: prints, then `os.Exit(1)`. -/
def stdFatalf (format : Bytes) (v : List Value) (st : State) : State :=
  { st with stdlog := st.stdlog ++ [LogCall.Fatalf format v], exited := some 1 }

/-- The call `fmt.Fprint(os.Stderr, s)` with one string operand: the bytes of `s`. -/
def fprintStderr (s : Bytes) (st : State) : State :=
  { st with stderr := st.stderr ++ s }

/-! ## `log.go` -/

/-- Print of `log.go`. -/
def Print (v : List Value) (st : State) : State := stdPrint v st

/-- Printf of `log.go`. -/
def Printf (format : Bytes) (v : List Value) (st : State) : State := stdPrintf format v st

/-- Println of `log.go`. -/
def Println (v : List Value) (st : State) : State := stdPrintln v st

/-- Fatal of `log.go`. -/
def Fatal (v : List Value) (st : State) : State := stdFatal v st

/-- Fatalf of `log.go`. -/
def Fatalf (format : Bytes) (v : List Value) (st : State) : State := stdFatalf format v st

/-- The call `runtime.Callers(skip, pc)`: the program counters found after `skip`
frames are stored in `pc` as far as they fit; the result is the slice and the
number of entries written. -/
def runtimeCallers (frames : List Nat) (skip : Nat) (pc : List Nat) : List Nat × Nat :=
  let found := (frames.drop skip).take pc.length
  (found ++ pc.drop found.length, found.length)

/-- Method `(*runtime.Func).Name`: the empty string for the nil pointer. -/
def FuncName (f : Option Bytes) : Bytes :=
  match f with
  | none => []
  | some name => name

/-- Lines 52 to 54 of `log.go` and the call `f.Name()` of line 56: a slice of ten
program counters is filled by `runtime.Callers(2, pc)`, and the runtime is asked
for the function of `pc[0]`; the result is the name it reports. -/
def Env.callerName (env : Env) : Bytes :=
  let pc := List.replicate 10 0
  let r := runtimeCallers env.frames 2 pc
  let f := env.funcForPC (r.1.getD 0 0)
  FuncName f

/-- The call `runtime.Stack(buf, false)`: the dump is copied into `buf` as far as
it fits; the result is the buffer and the number of bytes written. -/
def runtimeStack (dump buf : Bytes) : Bytes × Nat :=
  let n := min buf.length dump.length
  (dump.take n ++ buf.drop n, n)

/-- Function `getGID` of `log.go`; `dump` is the stack dump of the calling goroutine. -/
def getGID (dump : Bytes) : Option Nat :=
  let b := List.replicate 64 0
  let r := runtimeStack dump b
  match sliceTo r.1 (r.2 : Int) with
  | none => none
  | some b =>
    let b := TrimPrefix b (bytesOf "goroutine ")
    match sliceTo b (IndexByte b 32) with
    | none => none
    | some b =>
      let r := ParseUint b
      some r.1

/-- The line `Tracef` builds in its `strings.Builder` (lines 52 to 61 of `log.go`). -/
def traceLine (env : Env) (format : Bytes) (v : List Value) : Option (Bytes) :=
  match getGID env.stackDump with
  | none => none
  | some gid =>
    let buf := bytesOf "[" ++ fmtUint64 gid ++ bytesOf "] " ++ Base env.callerName ++ bytesOf "(): "
    let text := env.sprintf format v
    let buf := buf ++ text
    let buf := if text.length = 0 ∨ text.getD (text.length - 1) 0 ≠ 10 then buf ++ [10] else buf
    some buf

/-- Function `Tracef` of `log.go`. -/
def Tracef (env : Env) (format : Bytes) (v : List Value) (st : State) : Option State :=
  if st.Verbose then
    match traceLine env format v with
    | none => none
    | some line =>
      if st.TraceToStderr then some (fprintStderr line st)
      else some (stdPrint [Value.str line] st)
  else some st

/-- A sequence of calls of `Tracef`, each with its own environment and arguments. -/
def TracefAll : List (Env × Bytes × List Value) → State → Option State
  | [], st => some st
  | (env, format, v) :: rest, st =>
    match Tracef env format v st with
    | none => none
    | some st1 => TracefAll rest st1

/-! ## Reference notions used in the statements -/

/-- The decimal numeral of `n`, most significant digit first. -/
def decimal (n : Nat) : Bytes :=
  if n = 0 then [48] else ((Nat.digits 10 n).map (fun d => 48 + d)).reverse

/-- The value of a string of decimal digits read left to right. -/
def decValue (s : Bytes) : Nat := s.foldl (fun a c => a * 10 + (c - 48)) 0

/-- A byte is one of the digits `0` to `9`. -/
def isDigit (c : Nat) : Prop := 48 ≤ c ∧ c ≤ 57

instance (c : Nat) : Decidable (isDigit c) := by unfold isDigit; infer_instance

/-- The leading label of a stack dump. -/
def goroutineLabel : Bytes := bytesOf "goroutine "

/-- The formatter of the worked examples: `fmt.Sprintf` returns a verb-free format
unchanged when there are no arguments, and gives `value=42` for the format
`value=%d` applied to 42. -/
def exampleSprintf (format : Bytes) (v : List Value) : Bytes :=
  if format = bytesOf "value=%d" ∧ v = [Value.int 42] then bytesOf "value=42" else format

/-- The function table of the worked examples: the names the runtime reports for
four program counters, and the nil pointer for every other one. -/
def exampleFuncForPC (pc : Nat) : Option Bytes :=
  if pc = 4370052 then some (bytesOf "runtime.Callers")
  else if pc = 4823361 then some (bytesOf "github.com/hmage/golibs/log.Tracef")
  else if pc = 4823909 then some (bytesOf "main.doWork")
  else if pc = 4824037 then some (bytesOf "main.main")
  else none

/-- An environment of the worked examples: goroutine 7, and a stack on which the
frame below `Tracef` holds a program counter that the runtime reports as
`main.doWork`. -/
def exampleEnv : Env :=
  { stackDump := bytesOf "goroutine 7 [running]:\nmain.doWork()\n\t/src/app/main.go:12 +0x1d\nmain.main()\n"
    frames := [4370052, 4823361, 4823909, 4824037]
    funcForPC := exampleFuncForPC
    sprintf := exampleSprintf }

/-- The same goroutine on a stack where the frame below `Tracef` holds a program
counter that the runtime reports as `main.main`. -/
def exampleEnvMain : Env :=
  { exampleEnv with frames := [4370052, 4823361, 4824037] }

/-- The left-to-right reading of digits from an accumulator. -/
def decFold (acc : Nat) (s : Bytes) : Nat := s.foldl (fun a c => a * 10 + (c - 48)) acc

/-- The part of the snapshot `getGID` searches for the delimiter. -/
def trimmedSnapshot (dump : Bytes) : Bytes :=
  TrimPrefix (dump.take 64) (bytesOf "goroutine ")

/-- Reading `tok` as a decimal number stops at a syntax error: `tok` is empty, or a
byte that is no digit is met while the digits before it denote less than 2^64. -/
def SyntaxFailure (tok : Bytes) : Prop :=
  tok = [] ∨ ∃ pre c suf, tok = pre ++ c :: suf ∧ (∀ x ∈ pre, isDigit x) ∧
    decValue pre < 2 ^ 64 ∧ ¬ isDigit c

/-- Reading `tok` as a decimal number stops at a range error: a leading run of
digits denotes 2^64 or more. -/
def RangeFailure (tok : Bytes) : Prop :=
  ∃ pre suf, tok = pre ++ suf ∧ (∀ x ∈ pre, isDigit x) ∧ 2 ^ 64 ≤ decValue pre

/-- A state with tracing switched on and the standard logger as sink. -/
def verboseState : State := { State.init with Verbose := true }

/-- A state with tracing switched on and the standard error stream as sink. -/
def stderrState : State := { State.init with Verbose := true, TraceToStderr := true }

/-! ## The passthrough operations as one family -/

/-- The passthrough operations of the package. -/
inductive Op
  | Print
  | Printf
  | Println
  | Fatal
  | Fatalf
  deriving DecidableEq

/-- The function of `log.go` with the name of `op`, applied to `format` (where
the function takes one) and `v`. -/
def Op.callPackage (op : Op) (format : Bytes) (v : List Value) (st : State) : State :=
  match op with
  | Op.Print => GoLog.Print v st
  | Op.Printf => GoLog.Printf format v st
  | Op.Println => GoLog.Println v st
  | Op.Fatal => GoLog.Fatal v st
  | Op.Fatalf => GoLog.Fatalf format v st

/-- The specification of a passthrough operation: the effect of the standard
logger's operation of the same name on the same arguments. -/
def Op.callStandard (op : Op) (format : Bytes) (v : List Value) (st : State) : State :=
  match op with
  | Op.Print => stdPrint v st
  | Op.Printf => stdPrintf format v st
  | Op.Println => stdPrintln v st
  | Op.Fatal => stdFatal v st
  | Op.Fatalf => stdFatalf format v st

/-- The call of the standard logger that `op` stands for. -/
def Op.logCall (op : Op) (format : Bytes) (v : List Value) : LogCall :=
  match op with
  | Op.Print => LogCall.Print v
  | Op.Printf => LogCall.Printf format v
  | Op.Println => LogCall.Println v
  | Op.Fatal => LogCall.Fatal v
  | Op.Fatalf => LogCall.Fatalf format v

/-! # Properties

## Slices and searches -/

theorem goroutineLabel_length : goroutineLabel.length = 10 := by decide

theorem sliceTo_natCast (b : Bytes) (n : Nat) (h : n ≤ b.length) :
    sliceTo b (n : Int) = some (b.take n) := by
  unfold sliceTo
  have h1 : (0 : Int) ≤ (n : Int) ∧ (n : Int) ≤ (b.length : Int) := by omega
  rw [if_pos h1]
  simp

theorem sliceTo_neg (b : Bytes) (i : Int) (h : i < 0) : sliceTo b i = none := by
  unfold sliceTo
  have h1 : ¬ ((0 : Int) ≤ i ∧ i ≤ (b.length : Int)) := by omega
  rw [if_neg h1]

theorem indexByteFrom_not_mem (xs : Bytes) (c : Nat) (i : Nat) (h : c ∉ xs) :
    indexByteFrom xs c i = -1 := by
  induction xs generalizing i with
  | nil => rfl
  | cons x xs ih =>
    have hx : x ≠ c := fun e => h (by simp [e])
    have hxs : c ∉ xs := fun e => h (by simp [e])
    simp [indexByteFrom, hx, ih _ hxs]

theorem indexByteFrom_first (pre suf : Bytes) (c : Nat) (i : Nat) (h : c ∉ pre) :
    indexByteFrom (pre ++ c :: suf) c i = ((i + pre.length : Nat) : Int) := by
  induction pre generalizing i with
  | nil => simp [indexByteFrom]
  | cons x xs ih =>
    have hx : x ≠ c := fun e => h (by simp [e])
    have hxs : c ∉ xs := fun e => h (by simp [e])
    have e : indexByteFrom (x :: xs ++ c :: suf) c i = indexByteFrom (xs ++ c :: suf) c (i + 1) := by
      simp [indexByteFrom, hx]
    rw [e, ih _ hxs]
    simp only [List.length_cons]
    congr 1
    omega

theorem IndexByte_first (pre suf : Bytes) (c : Nat) (h : c ∉ pre) :
    IndexByte (pre ++ c :: suf) c = (pre.length : Int) := by
  unfold IndexByte
  rw [indexByteFrom_first pre suf c 0 h]
  simp

theorem IndexByte_not_mem (xs : Bytes) (c : Nat) (h : c ∉ xs) : IndexByte xs c = -1 :=
  indexByteFrom_not_mem xs c 0 h

theorem exists_first_occurrence (xs : Bytes) (c : Nat) (h : c ∈ xs) :
    ∃ pre suf, xs = pre ++ c :: suf ∧ c ∉ pre := by
  induction xs with
  | nil => simp at h
  | cons x xs ih =>
    by_cases hx : x = c
    · exact ⟨[], xs, by simp [hx], by simp⟩
    · have hxs : c ∈ xs := by
        rcases List.mem_cons.mp h with e | e
        · exact absurd e.symm hx
        · exact e
      obtain ⟨pre, suf, e, hp⟩ := ih hxs
      refine ⟨x :: pre, suf, by simp [e], ?_⟩
      intro hm
      rcases List.mem_cons.mp hm with e1 | e1
      · exact hx e1.symm
      · exact hp e1

theorem TrimPrefix_append (p x : Bytes) : TrimPrefix (p ++ x) p = x := by
  unfold TrimPrefix HasPrefix
  simp

/-! ## The snapshot taken by `getGID` -/

theorem snapshot_eq (dump : Bytes) :
    sliceTo (runtimeStack dump (List.replicate 64 0)).1
      ((runtimeStack dump (List.replicate 64 0)).2 : Int) = some (dump.take 64) := by
  unfold runtimeStack
  simp only [List.length_replicate]
  rw [sliceTo_natCast]
  · congr 1
    rw [List.take_append_eq_append_take]
    simp [List.take_take]
  · simp

theorem getGID_eq (dump : Bytes) :
    getGID dump =
      match sliceTo (trimmedSnapshot dump) (IndexByte (trimmedSnapshot dump) 32) with
      | none => none
      | some b => some (ParseUint b).1 := by
  unfold getGID
  simp only [snapshot_eq, trimmedSnapshot]

theorem getGID_of_delimiter (dump tok suf : Bytes)
    (h : trimmedSnapshot dump = tok ++ 32 :: suf) (htok : (32 : Nat) ∉ tok) :
    getGID dump = some (ParseUint tok).1 := by
  rw [getGID_eq, h, IndexByte_first tok suf 32 htok, sliceTo_natCast _ _ (by simp)]
  simp

theorem getGID_no_delimiter (dump : Bytes) (h : (32 : Nat) ∉ trimmedSnapshot dump) :
    getGID dump = none := by
  rw [getGID_eq, IndexByte_not_mem _ _ h, sliceTo_neg _ _ (by decide)]

theorem trimmedSnapshot_header (tok rest : Bytes) (hlen : tok.length ≤ 53) :
    trimmedSnapshot (goroutineLabel ++ tok ++ 32 :: rest)
      = tok ++ 32 :: rest.take (53 - tok.length) := by
  unfold trimmedSnapshot
  have e : (goroutineLabel ++ tok ++ 32 :: rest).take 64
      = goroutineLabel ++ (tok ++ 32 :: rest.take (53 - tok.length)) := by
    rw [List.append_assoc, List.take_append_eq_append_take, List.take_append_eq_append_take,
      goroutineLabel_length]
    have h1 : goroutineLabel.take 64 = goroutineLabel := by decide
    have h2 : tok.take (64 - 10) = tok := List.take_of_length_le (by omega)
    have h3 : 64 - 10 - tok.length = (53 - tok.length) + 1 := by omega
    rw [h1, h2, h3, List.take_succ_cons]
  rw [e]
  exact TrimPrefix_append _ _

theorem getGID_header (tok rest : Bytes) (hlen : tok.length ≤ 53) (htok : (32 : Nat) ∉ tok) :
    getGID (goroutineLabel ++ tok ++ 32 :: rest) = some (ParseUint tok).1 :=
  getGID_of_delimiter _ tok _ (trimmedSnapshot_header tok rest hlen) htok

/-! ## `strconv.ParseUint` on digits, on a foreign byte and on overflow -/

theorem digitVal_of_isDigit (c : Nat) (h : isDigit c) : digitVal c = some (c - 48) := by
  have h1 : 48 ≤ c ∧ c ≤ 57 := h
  unfold digitVal
  rw [if_pos h1]

theorem digitVal_of_not_isDigit (c : Nat) (h : ¬ isDigit c) :
    digitVal c = none ∨ ∃ d, digitVal c = some d ∧ d ≥ 10 := by
  have h1 : ¬ (48 ≤ c ∧ c ≤ 57) := h
  unfold digitVal
  rw [if_neg h1]
  by_cases h2 : 97 ≤ lower c ∧ lower c ≤ 122
  · right
    exact ⟨lower c - 97 + 10, by rw [if_pos h2], by omega⟩
  · left
    rw [if_neg h2]

theorem parseUintLoop_nondigit (cutoff maxVal : Nat) (c : Nat) (cs : Bytes) (n : Nat)
    (h : ¬ isDigit c) :
    parseUintLoop cutoff maxVal (c :: cs) n = (0, some NumError.ErrSyntax) := by
  rcases digitVal_of_not_isDigit c h with e | ⟨d, e, hd⟩
  · simp [parseUintLoop, e]
  · simp [parseUintLoop, e, hd]

theorem cutoff_eq : maxUint64 / 10 + 1 = 1844674407370955162 := by decide

theorem maxUint64_eq : maxUint64 = 18446744073709551615 := by decide

theorem parseUintLoop_digit (c : Nat) (cs : Bytes) (n : Nat) (h : isDigit c)
    (hn : n * 10 + (c - 48) < 2 ^ 64) :
    parseUintLoop (maxUint64 / 10 + 1) maxUint64 (c :: cs) n
      = parseUintLoop (maxUint64 / 10 + 1) maxUint64 cs (n * 10 + (c - 48)) := by
  have hd : c - 48 < 10 := by unfold isDigit at h; omega
  rw [cutoff_eq, maxUint64_eq]
  have h1 : ¬ (c - 48 ≥ 10) := by omega
  have h2 : ¬ (n ≥ 1844674407370955162) := by omega
  have h3 : (n * 10) % 2 ^ 64 = n * 10 := Nat.mod_eq_of_lt (by omega)
  have h4 : (n * 10 + (c - 48)) % 2 ^ 64 = n * 10 + (c - 48) := Nat.mod_eq_of_lt hn
  have h5 : ¬ (n * 10 + (c - 48) < n * 10 ∨ n * 10 + (c - 48) > 18446744073709551615) := by
    omega
  rw [parseUintLoop, digitVal_of_isDigit c h]
  simp only [h3, h4]
  rw [if_neg h1, if_neg h2, if_neg h5]

theorem parseUintLoop_overflow (c : Nat) (cs : Bytes) (n : Nat) (h : isDigit c)
    (hn : n < 2 ^ 64) (ho : 2 ^ 64 ≤ n * 10 + (c - 48)) :
    parseUintLoop (maxUint64 / 10 + 1) maxUint64 (c :: cs) n
      = (maxUint64, some NumError.ErrRange) := by
  have hd : c - 48 < 10 := by unfold isDigit at h; omega
  rw [cutoff_eq]
  have h1 : ¬ (c - 48 ≥ 10) := by omega
  rw [parseUintLoop, digitVal_of_isDigit c h]
  simp only
  rw [if_neg h1]
  by_cases h2 : n ≥ 1844674407370955162
  · rw [if_pos h2]
  · rw [if_neg h2]
    have h3 : (n * 10) % 2 ^ 64 = n * 10 := Nat.mod_eq_of_lt (by omega)
    have h5 : (n * 10 + (c - 48)) % 2 ^ 64 < n * 10 ∨
        (n * 10 + (c - 48)) % 2 ^ 64 > maxUint64 := by
      left
      omega
    rw [h3, if_pos h5]

theorem decFold_nil (acc : Nat) : decFold acc [] = acc := rfl

theorem decFold_cons (acc : Nat) (c : Nat) (s : Bytes) :
    decFold acc (c :: s) = decFold (acc * 10 + (c - 48)) s := rfl

theorem decFold_append (acc : Nat) (s t : Bytes) :
    decFold acc (s ++ t) = decFold (decFold acc s) t := by
  simp [decFold, List.foldl_append]

theorem decValue_eq (s : Bytes) : decValue s = decFold 0 s := rfl

theorem le_decFold (acc : Nat) (s : Bytes) : acc ≤ decFold acc s := by
  induction s generalizing acc with
  | nil => exact Nat.le_refl _
  | cons c s ih =>
    rw [decFold_cons]
    have := ih (acc * 10 + (c - 48))
    omega

theorem parseUintLoop_digits (ds rest : Bytes) (acc : Nat)
    (hd : ∀ c ∈ ds, isDigit c) (hv : decFold acc ds < 2 ^ 64) :
    parseUintLoop (maxUint64 / 10 + 1) maxUint64 (ds ++ rest) acc
      = parseUintLoop (maxUint64 / 10 + 1) maxUint64 rest (decFold acc ds) := by
  induction ds generalizing acc with
  | nil => rfl
  | cons c cs ih =>
    rw [decFold_cons] at hv
    have hc : isDigit c := hd c (by simp)
    have hstep : acc * 10 + (c - 48) < 2 ^ 64 := lt_of_le_of_lt (le_decFold _ _) hv
    rw [List.cons_append, parseUintLoop_digit c _ acc hc hstep, decFold_cons]
    exact ih _ (fun x hx => hd x (by simp [hx])) hv

theorem parseUintLoop_range (ds rest : Bytes) (acc : Nat)
    (hd : ∀ c ∈ ds, isDigit c) (hacc : acc < 2 ^ 64) (hv : 2 ^ 64 ≤ decFold acc ds) :
    parseUintLoop (maxUint64 / 10 + 1) maxUint64 (ds ++ rest) acc
      = (maxUint64, some NumError.ErrRange) := by
  induction ds generalizing acc with
  | nil =>
    rw [decFold_nil] at hv
    omega
  | cons c cs ih =>
    rw [decFold_cons] at hv
    have hc : isDigit c := hd c (by simp)
    by_cases hstep : acc * 10 + (c - 48) < 2 ^ 64
    · rw [List.cons_append, parseUintLoop_digit c _ acc hc hstep]
      exact ih _ (fun x hx => hd x (by simp [hx])) hstep hv
    · rw [List.cons_append]
      exact parseUintLoop_overflow c _ acc hc hacc (by omega)

theorem ParseUint_nil : ParseUint [] = (0, some NumError.ErrSyntax) := rfl

theorem ParseUint_digits (ds : Bytes) (hne : ds ≠ [])
    (hd : ∀ c ∈ ds, isDigit c) (hv : decValue ds < 2 ^ 64) :
    ParseUint ds = (decValue ds, none) := by
  unfold ParseUint
  rw [if_neg hne]
  have := parseUintLoop_digits ds [] 0 hd hv
  rw [List.append_nil] at this
  rw [this]
  rfl

theorem ParseUint_foreign (pre suf : Bytes) (c : Nat)
    (hd : ∀ x ∈ pre, isDigit x) (hv : decValue pre < 2 ^ 64) (hc : ¬ isDigit c) :
    ParseUint (pre ++ c :: suf) = (0, some NumError.ErrSyntax) := by
  unfold ParseUint
  rw [if_neg (by simp)]
  rw [parseUintLoop_digits pre (c :: suf) 0 hd hv]
  exact parseUintLoop_nondigit _ _ c suf _ hc

theorem ParseUint_range (pre suf : Bytes)
    (hd : ∀ x ∈ pre, isDigit x) (hv : 2 ^ 64 ≤ decValue pre) :
    ParseUint (pre ++ suf) = (maxUint64, some NumError.ErrRange) := by
  unfold ParseUint
  have hne : pre ++ suf ≠ [] := by
    intro e
    have : pre = [] := (List.append_eq_nil.mp e).1
    subst this
    simp [decValue] at hv
  rw [if_neg hne]
  exact parseUintLoop_range pre suf 0 hd (by norm_num) hv

/-! ## The decimal numeral -/

theorem decValue_reverse_map (L : List Nat) (h : ∀ d ∈ L, d < 10) :
    decValue ((L.map (fun d => 48 + d)).reverse) = Nat.ofDigits 10 L := by
  induction L with
  | nil => rfl
  | cons d L ih =>
    rw [List.map_cons, List.reverse_cons, decValue_eq, decFold_append, ← decValue_eq,
      ih (fun x hx => h x (by simp [hx])), Nat.ofDigits_cons]
    simp only [decFold_cons, decFold_nil]
    omega

theorem decimal_of_pos (n : Nat) (h : n ≠ 0) :
    decimal n = ((Nat.digits 10 n).map (fun d => 48 + d)).reverse := by
  unfold decimal
  rw [if_neg h]

theorem decValue_decimal (n : Nat) : decValue (decimal n) = n := by
  by_cases h : n = 0
  · subst h
    rfl
  · rw [decimal_of_pos n h,
      decValue_reverse_map _ (fun d hd => Nat.digits_lt_base (by norm_num) hd),
      Nat.ofDigits_digits]

theorem isDigit_of_mem_decimal (n : Nat) (c : Nat) (h : c ∈ decimal n) : isDigit c := by
  by_cases h0 : n = 0
  · subst h0
    have : c = 48 := by simpa [decimal] using h
    subst this
    decide
  · rw [decimal_of_pos n h0] at h
    simp only [List.mem_reverse, List.mem_map] at h
    obtain ⟨d, hd, rfl⟩ := h
    have := Nat.digits_lt_base (by norm_num : 1 < 10) hd
    unfold isDigit
    omega

theorem decimal_ne_nil (n : Nat) : decimal n ≠ [] := by
  by_cases h0 : n = 0
  · subst h0
    decide
  · rw [decimal_of_pos n h0]
    simpa using Nat.digits_ne_nil_iff_ne_zero.mpr h0

theorem space_not_mem_decimal (n : Nat) : (32 : Nat) ∉ decimal n := by
  intro h
  have := isDigit_of_mem_decimal n 32 h
  revert this
  decide

theorem decimal_length_le (n : Nat) (h : n < 2 ^ 64) : (decimal n).length ≤ 20 := by
  by_cases h0 : n = 0
  · subst h0
    decide
  · rw [decimal_of_pos n h0]
    simp only [List.length_reverse, List.length_map]
    have h1 := Nat.base_pow_length_digits_le 10 n (by norm_num) h0
    have h2 : 10 ^ (Nat.digits 10 n).length < 10 ^ 21 := by
      calc 10 ^ (Nat.digits 10 n).length ≤ 10 * n := h1
        _ < 10 ^ 21 := by omega
    have h3 := (Nat.pow_lt_pow_iff_right (by norm_num : 1 < 10)).mp h2
    omega

theorem ParseUint_decimal (n : Nat) (h : n < 2 ^ 64) : ParseUint (decimal n) = (n, none) := by
  have := ParseUint_digits (decimal n) (decimal_ne_nil n) (isDigit_of_mem_decimal n)
    (by rw [decValue_decimal]; exact h)
  rw [decValue_decimal] at this
  exact this

theorem decimal_step (u : Nat) (h : u ≥ 10) :
    decimal u = decimal (u / 10) ++ [48 + u % 10] := by
  have h0 : u ≠ 0 := by omega
  have h1 : u / 10 ≠ 0 := by omega
  rw [decimal_of_pos u h0, decimal_of_pos (u / 10) h1,
    Nat.digits_def' (by norm_num) (by omega : 0 < u)]
  simp

theorem decimal_small (u : Nat) (h : u < 10) : decimal u = [48 + u] := by
  by_cases h0 : u = 0
  · subst h0
    rfl
  · rw [decimal_of_pos u h0, Nat.digits_of_lt 10 u h0 h]
    rfl

theorem fmtDecimalLoop_eq (fuel u : Nat) (buf : Bytes) (h : u ≤ fuel) :
    fmtDecimalLoop fuel u buf = decimal u ++ buf := by
  induction fuel generalizing u buf with
  | zero =>
    have : u = 0 := by omega
    subst this
    rfl
  | succ fuel ih =>
    rw [fmtDecimalLoop]
    by_cases hu : u ≥ 10
    · rw [if_pos hu]
      simp only
      rw [ih (u / 10) _ (by omega), decimal_step u hu]
      have : 48 + u - u / 10 * 10 = 48 + u % 10 := by omega
      rw [this]
      simp
    · rw [if_neg hu, decimal_small u (by omega)]
      rfl

theorem fmtUint64_eq_decimal (u : Nat) : fmtUint64 u = decimal u := by
  unfold fmtUint64
  rw [fmtDecimalLoop_eq u u [] (Nat.le_refl u)]
  simp

/-! ## `path.Base` -/

theorem dropWhile_slash_reverse (q : Bytes) (h : (47 : Nat) ∉ q) :
    (q.reverse.dropWhile (fun c => c == 47)).reverse = q := by
  rcases List.eq_nil_or_concat q with rfl | ⟨init, x, rfl⟩
  · rfl
  · have hx : x ≠ 47 := fun e => h (by simp [e])
    simp [List.dropWhile_cons, hx]

theorem dropWhile_slash_reverse_append (d q : Bytes) (hq : q ≠ []) (h : (47 : Nat) ∉ q) :
    ((d ++ 47 :: q).reverse.dropWhile (fun c => c == 47)).reverse = d ++ 47 :: q := by
  rcases List.eq_nil_or_concat q with rfl | ⟨init, x, rfl⟩
  · exact absurd rfl hq
  · have hx : x ≠ 47 := fun e => h (by simp [e])
    simp [List.dropWhile_cons, hx]

theorem LastIndexByte_not_mem (q : Bytes) (c : Nat) (h : c ∉ q) : LastIndexByte q c = -1 := by
  unfold LastIndexByte
  rw [IndexByte_not_mem q.reverse c (by simpa using h)]
  rfl

theorem LastIndexByte_last (d q : Bytes) (c : Nat) (h : c ∉ q) :
    LastIndexByte (d ++ c :: q) c = (d.length : Int) := by
  unfold LastIndexByte
  have e : (d ++ c :: q).reverse = q.reverse ++ c :: d.reverse := by simp
  rw [e, IndexByte_first q.reverse d.reverse c (by simpa using h)]
  simp only [List.length_reverse, List.length_append, List.length_cons]
  have : ¬ ((q.length : Int) < 0) := by omega
  rw [if_neg this]
  push_cast
  omega

/-- The base name of a slash-free, non-empty name is the name itself. -/
theorem Base_of_no_slash (q : Bytes) (hq : q ≠ []) (h : (47 : Nat) ∉ q) : Base q = q := by
  unfold Base
  rw [if_neg hq]
  simp only [dropWhile_slash_reverse q h, LastIndexByte_not_mem q 47 h]
  rw [if_neg (show ¬ ((-1 : Int) ≥ 0) by decide), if_neg hq]

/-- The base name of `d/q`, with `q` slash-free and non-empty, is `q`. -/
theorem Base_of_dir (d q : Bytes) (hq : q ≠ []) (h : (47 : Nat) ∉ q) :
    Base (d ++ 47 :: q) = q := by
  unfold Base
  rw [if_neg (by simp)]
  simp only [dropWhile_slash_reverse_append d q hq h, LastIndexByte_last d q 47 h]
  have h1 : ((d.length : Int) ≥ 0) := by omega
  have h2 : ((d.length : Int) + 1).toNat = d.length + 1 := by omega
  rw [if_pos h1, h2]
  have h3 : (d ++ 47 :: q).drop (d.length + 1) = q := by
    rw [List.drop_append_eq_append_drop]
    simp
  rw [h3, if_neg hq]

/-! ## The line built by `Tracef` -/

theorem lastByte_test (text : Bytes) :
    (text.length = 0 ∨ text.getD (text.length - 1) 0 ≠ 10) ↔ ¬ ∃ pre, text = pre ++ [10] := by
  rcases List.eq_nil_or_concat text with rfl | ⟨init, x, rfl⟩
  · simp
  · rw [List.concat_eq_append]
    have e : (init ++ [x]).getD ((init ++ [x]).length - 1) 0 = x := by
      simp [List.getD_eq_getElem?_getD]
    rw [e]
    constructor
    · rintro (h | h)
      · simp at h
      · rintro ⟨pre, hp⟩
        have h2 : [x] = [10] := (List.append_inj' hp rfl).2
        exact h (List.cons.inj h2).1
    · intro h
      right
      intro hx
      exact h ⟨init, by rw [hx]⟩

theorem traceLine_of_newline (env : Env) (format : Bytes) (v : List Value) (g : Nat)
    (hg : getGID env.stackDump = some g) (h : ∃ pre, env.sprintf format v = pre ++ [10]) :
    traceLine env format v = some (bytesOf "[" ++ decimal g ++ bytesOf "] "
      ++ Base env.callerName ++ bytesOf "(): " ++ env.sprintf format v) := by
  unfold traceLine
  rw [hg]
  simp only [fmtUint64_eq_decimal]
  have := (lastByte_test (env.sprintf format v)).not.mpr (not_not.mpr h)
  rw [if_neg this]

theorem traceLine_of_no_newline (env : Env) (format : Bytes) (v : List Value) (g : Nat)
    (hg : getGID env.stackDump = some g) (h : ¬ ∃ pre, env.sprintf format v = pre ++ [10]) :
    traceLine env format v = some (bytesOf "[" ++ decimal g ++ bytesOf "] "
      ++ Base env.callerName ++ bytesOf "(): " ++ env.sprintf format v ++ [10]) := by
  unfold traceLine
  rw [hg]
  simp only [fmtUint64_eq_decimal]
  have := (lastByte_test (env.sprintf format v)).mpr h
  rw [if_pos this]

theorem Tracef_of_line (env : Env) (format : Bytes) (v : List Value) (st : State) (line : Bytes)
    (hv : st.Verbose = true) (hl : traceLine env format v = some line) :
    Tracef env format v st
      = some (if st.TraceToStderr then fprintStderr line st else stdPrint [Value.str line] st) := by
  unfold Tracef
  rw [if_pos hv, hl]
  simp only
  split <;> rfl

theorem callerName_of_frames (env : Env) (f0 f1 pc : Nat) (below : List Nat) (name : Bytes)
    (hframes : env.frames = f0 :: f1 :: pc :: below) (hfn : env.funcForPC pc = some name) :
    env.callerName = name := by
  unfold Env.callerName runtimeCallers
  rw [hframes]
  have e : ((List.drop 2 (f0 :: f1 :: pc :: below)).take (List.replicate 10 0).length
      ++ (List.replicate 10 0).drop
        ((List.drop 2 (f0 :: f1 :: pc :: below)).take (List.replicate 10 0).length).length).getD 0 0
      = pc := by
    simp
  simp only [e, hfn]
  rfl

theorem traceLine_tail (env : Env) (format : Bytes) (v : List Value) (g : Nat)
    (hg : getGID env.stackDump = some g) :
    ∃ tail, (tail = [] ∨ tail = [10]) ∧
      (tail = [] ↔ ∃ pre, env.sprintf format v = pre ++ [10]) ∧
      traceLine env format v = some (bytesOf "[" ++ decimal g ++ bytesOf "] "
        ++ Base env.callerName ++ bytesOf "(): " ++ env.sprintf format v ++ tail) := by
  by_cases h : ∃ pre, env.sprintf format v = pre ++ [10]
  · exact ⟨[], Or.inl rfl, ⟨fun _ => h, fun _ => rfl⟩,
      by rw [List.append_nil]; exact traceLine_of_newline env format v g hg h⟩
  · exact ⟨[10], Or.inr rfl, ⟨fun e => absurd e (by decide), fun e => absurd e h⟩,
      traceLine_of_no_newline env format v g hg h⟩

theorem traceLine_cases (env : Env) (format : Bytes) (v : List Value) (g : Nat)
    (hg : getGID env.stackDump = some g) :
    ∃ tail, (tail = [] ∨ tail = [10]) ∧
      traceLine env format v = some (bytesOf "[" ++ decimal g ++ bytesOf "] "
        ++ Base env.callerName ++ bytesOf "(): " ++ env.sprintf format v ++ tail) := by
  by_cases h : ∃ pre, env.sprintf format v = pre ++ [10]
  · exact ⟨[], Or.inl rfl, by rw [List.append_nil]; exact traceLine_of_newline env format v g hg h⟩
  · exact ⟨[10], Or.inr rfl, traceLine_of_no_newline env format v g hg h⟩

theorem append_ends (A B pre : Bytes) (x : Nat) (h : A ++ B = pre ++ [x]) :
    (B = [] ∧ A = pre ++ [x]) ∨ ∃ B', B = B' ++ [x] := by
  rcases List.eq_nil_or_concat B with rfl | ⟨init, y, rfl⟩
  · left
    exact ⟨rfl, by simpa using h⟩
  · right
    rw [List.concat_eq_append] at h ⊢
    rw [← List.append_assoc] at h
    have h2 : [y] = [x] := (List.append_inj' h rfl).2
    exact ⟨init, by rw [(List.cons.inj h2).1]⟩

theorem header_not_newline (X pre : Bytes) : X ++ bytesOf "(): " ≠ pre ++ [10] := by
  intro h
  have e : bytesOf "(): " = [40, 41, 58] ++ [32] := by decide
  rw [e, ← List.append_assoc] at h
  have h2 : [32] = [10] := (List.append_inj' h rfl).2
  exact absurd h2 (by decide)

theorem TracefAll_silent (calls : List (Env × Bytes × List Value)) (st : State)
    (h : st.Verbose = false) : TracefAll calls st = some st := by
  induction calls with
  | nil => rfl
  | cons call rest ih =>
    obtain ⟨env, format, v⟩ := call
    have e : Tracef env format v st = some st := by
      unfold Tracef
      rw [h]
      rfl
    simp only [TracefAll, e]
    exact ih

/-! ## `Tracef`, `getGID` and the passthrough functions -/

/-- C1: when `Verbose` is false a call to `Tracef` returns the state it was given,
for every environment, format and argument list: no byte reaches the standard
error stream, no call reaches the standard logger, both flags keep their
values; the same holds for any sequence of such calls. -/
theorem Tracef_noop_when_not_verbose (env : Env) (format : Bytes) (v : List Value) (st : State)
    (h : st.Verbose = false) :
    Tracef env format v st = some st ∧
      ∀ calls : List (Env × Bytes × List Value), TracefAll calls st = some st := by
  refine ⟨?_, fun calls => TracefAll_silent calls st h⟩
  unfold Tracef
  rw [h]
  rfl

/-- Witness for C1: the freshly loaded package, where `Verbose` is false. -/
theorem Tracef_noop_when_not_verbose_witness :
    State.init.Verbose = false ∧
      (Tracef exampleEnv (bytesOf "value=%d") [Value.int 42] State.init = some State.init ∧
        ∀ calls : List (Env × Bytes × List Value), TracefAll calls State.init = some State.init) :=
  ⟨rfl, Tracef_noop_when_not_verbose exampleEnv (bytesOf "value=%d") [Value.int 42] State.init rfl⟩

/-- C2: with goroutine id `g`, caller short name `c` and formatted message `m`, the
line `Tracef` builds is `[` decimal(g) `] ` c `(): ` m when `m` ends in a newline,
and the same followed by one newline when it does not (the empty `m` included);
with `Verbose` true this line is what `Tracef` emits. -/
theorem Tracef_line_layout (env : Env) (format : Bytes) (v : List Value) (g : Nat) (c m : Bytes)
    (hg : getGID env.stackDump = some g) (hc : Base env.callerName = c)
    (hm : env.sprintf format v = m) :
    ((∃ pre, m = pre ++ [10]) →
        traceLine env format v
          = some (bytesOf "[" ++ decimal g ++ bytesOf "] " ++ c ++ bytesOf "(): " ++ m)) ∧
      ((¬ ∃ pre, m = pre ++ [10]) →
        traceLine env format v
          = some (bytesOf "[" ++ decimal g ++ bytesOf "] " ++ c ++ bytesOf "(): " ++ m ++ [10])) ∧
      ∀ st : State, st.Verbose = true →
        ∃ line, traceLine env format v = some line ∧
          Tracef env format v st
            = some (if st.TraceToStderr then fprintStderr line st
                else stdPrint [Value.str line] st) := by
  subst hc hm
  refine ⟨traceLine_of_newline env format v g hg, traceLine_of_no_newline env format v g hg, ?_⟩
  intro st hv
  obtain ⟨tail, _, hl⟩ := traceLine_cases env format v g hg
  exact ⟨_, hl, Tracef_of_line env format v st _ hv hl⟩

/-- Witness for C2: goroutine 7, reported name `main.doWork`, message `value=42`. -/
theorem Tracef_line_layout_witness :
    getGID exampleEnv.stackDump = some 7 ∧
      Base exampleEnv.callerName = bytesOf "main.doWork" ∧
      exampleEnv.sprintf (bytesOf "value=%d") [Value.int 42] = bytesOf "value=42" ∧
      traceLine exampleEnv (bytesOf "value=%d") [Value.int 42]
        = some (bytesOf "[" ++ decimal 7 ++ bytesOf "] " ++ bytesOf "main.doWork"
            ++ bytesOf "(): " ++ bytesOf "value=42" ++ [10]) :=
  ⟨by decide, by decide, by decide,
    (Tracef_line_layout exampleEnv (bytesOf "value=%d") [Value.int 42] 7 (bytesOf "main.doWork")
      (bytesOf "value=42") (by decide) (by decide) (by decide)).2.1
      ((lastByte_test (bytesOf "value=42")).mp (by decide))⟩

/-- C3: with `Verbose` true the built line goes to exactly one sink.  When
`TraceToStderr` is true the bytes appended to the standard error stream are the
line itself and the standard logger receives no call; when it is false the
standard logger receives one `Print` call whose only argument is the line and
nothing is appended to the standard error stream.  The flags are unchanged. -/
theorem Tracef_routes_to_one_sink (env : Env) (format : Bytes) (v : List Value) (st : State)
    (g : Nat) (hv : st.Verbose = true) (hg : getGID env.stackDump = some g) :
    ∃ line st1, traceLine env format v = some line ∧ Tracef env format v st = some st1 ∧
      st1.Verbose = st.Verbose ∧ st1.TraceToStderr = st.TraceToStderr ∧
      st1.exited = st.exited ∧
      (st.TraceToStderr = true →
        st1.stderr = st.stderr ++ line ∧ st1.stdlog = st.stdlog) ∧
      (st.TraceToStderr = false →
        st1.stdlog = st.stdlog ++ [LogCall.Print [Value.str line]] ∧
          st1.stderr = st.stderr) := by
  obtain ⟨tail, _, hl⟩ := traceLine_cases env format v g hg
  refine ⟨_, _, hl, Tracef_of_line env format v st _ hv hl, ?_⟩
  cases ht : st.TraceToStderr <;> simp [fprintStderr, stdPrint, ht]

/-- Witness for C3: the message `done` with the standard error stream as sink. -/
theorem Tracef_routes_to_one_sink_witness :
    stderrState.Verbose = true ∧ getGID exampleEnv.stackDump = some 7 ∧
      ∃ line st1, traceLine exampleEnv (bytesOf "done") [] = some line ∧
        Tracef exampleEnv (bytesOf "done") [] stderrState = some st1 ∧
        st1.Verbose = stderrState.Verbose ∧ st1.TraceToStderr = stderrState.TraceToStderr ∧
        st1.exited = stderrState.exited ∧
        (stderrState.TraceToStderr = true →
          st1.stderr = stderrState.stderr ++ line ∧ st1.stdlog = stderrState.stdlog) ∧
        (stderrState.TraceToStderr = false →
          st1.stdlog = stderrState.stdlog ++ [LogCall.Print [Value.str line]] ∧
            st1.stderr = stderrState.stderr) :=
  ⟨rfl, by decide,
    Tracef_routes_to_one_sink exampleEnv (bytesOf "done") [] stderrState 7 rfl (by decide)⟩

/-- C4, as stated, fails: when the name the runtime reports for the program
counter below `Tracef` is `main.doWork` (import path `main`, symbol `doWork`),
`Tracef("value=%d", 42)` hands the standard logger the line
`[7] main.doWork(): value=42`, not `[7] doWork(): value=42`; when the reported name
is `main.main` the line is `[7] main.main(): value=42`; the printed form of
`github.com/hmage/golibs/log.doWork` is `log.doWork`. -/
theorem Tracef_prints_package_qualified_name :
    exampleEnv.callerName = bytesOf "main" ++ bytesOf "." ++ bytesOf "doWork" ∧
      Tracef exampleEnv (bytesOf "value=%d") [Value.int 42] verboseState
        = some (stdPrint [Value.str (bytesOf "[7] main.doWork(): value=42\n")] verboseState) ∧
      Tracef exampleEnv (bytesOf "value=%d") [Value.int 42] verboseState
        ≠ some (stdPrint [Value.str (bytesOf "[7] doWork(): value=42\n")] verboseState) ∧
      exampleEnvMain.callerName = bytesOf "main" ++ bytesOf "." ++ bytesOf "main" ∧
      Tracef exampleEnvMain (bytesOf "value=%d") [Value.int 42] verboseState
        = some (stdPrint [Value.str (bytesOf "[7] main.main(): value=42\n")] verboseState) ∧
      Base (bytesOf "main.doWork") ≠ bytesOf "doWork" ∧
      Base (bytesOf "github.com/hmage/golibs/log.doWork") = bytesOf "log.doWork" := by
  decide

/-- C4, amended: the name printed in the line is the base of the name the runtime
reports for the first program counter that `runtime.Callers(2, pc)` stores (the
one of the frame below `Tracef`): everything up to and including the last slash
of that name is removed and the package qualifier is kept.  When the reported
name is `d/q` or `q`, with `q` non-empty and free of slashes, the printed name is
`q`; with `Verbose` true and `TraceToStderr` false the standard logger receives
`[` digits `] ` q `(): ` message, closed by a newline.  Which function the runtime
reports for that program counter is given by the environment. -/
theorem Tracef_prints_base_of_caller (env : Env) (format : Bytes) (v : List Value) (st : State)
    (g f0 f1 pc : Nat) (below : List Nat) (name d q : Bytes)
    (hv : st.Verbose = true) (ht : st.TraceToStderr = false)
    (hg : getGID env.stackDump = some g)
    (hframes : env.frames = f0 :: f1 :: pc :: below)
    (hfn : env.funcForPC pc = some name)
    (hname : name = q ∨ name = d ++ bytesOf "/" ++ q)
    (hq : q ≠ []) (hs : (47 : Nat) ∉ q) :
    env.callerName = name ∧ Base env.callerName = q ∧ (∀ c ∈ decimal g, isDigit c) ∧
      ∃ tail, (tail = [] ∨ tail = [10]) ∧
        (tail = [] ↔ ∃ pre, env.sprintf format v = pre ++ [10]) ∧
        Tracef env format v st
          = some (stdPrint [Value.str (bytesOf "[" ++ decimal g ++ bytesOf "] " ++ q
              ++ bytesOf "(): " ++ env.sprintf format v ++ tail)] st) := by
  have hn : env.callerName = name := callerName_of_frames env f0 f1 pc below name hframes hfn
  have hb : Base env.callerName = q := by
    rw [hn]
    rcases hname with e | e
    · rw [e]
      exact Base_of_no_slash q hq hs
    · rw [e]
      have : d ++ bytesOf "/" ++ q = d ++ 47 :: q := by
        rw [List.append_assoc]
        rfl
      rw [this]
      exact Base_of_dir d q hq hs
  refine ⟨hn, hb, isDigit_of_mem_decimal g, ?_⟩
  obtain ⟨tail, htail, hiff, hl⟩ := traceLine_tail env format v g hg
  refine ⟨tail, htail, hiff, ?_⟩
  rw [Tracef_of_line env format v st _ hv hl, ht, hb]
  rfl

/-- Witness for C4: the call `Tracef("value=%d", 42)` on a stack whose frame below
`Tracef` is reported as `main.doWork`. -/
theorem Tracef_prints_base_of_caller_witness :
    verboseState.Verbose = true ∧ verboseState.TraceToStderr = false ∧
      getGID exampleEnv.stackDump = some 7 ∧
      exampleEnv.frames = 4370052 :: 4823361 :: 4823909 :: [4824037] ∧
      exampleEnv.funcForPC 4823909 = some (bytesOf "main.doWork") ∧
      (bytesOf "main.doWork" = bytesOf "main.doWork" ∨
        bytesOf "main.doWork" = [] ++ bytesOf "/" ++ bytesOf "main.doWork") ∧
      bytesOf "main.doWork" ≠ [] ∧ (47 : Nat) ∉ bytesOf "main.doWork" ∧
      (exampleEnv.callerName = bytesOf "main.doWork" ∧
        Base exampleEnv.callerName = bytesOf "main.doWork" ∧ (∀ c ∈ decimal 7, isDigit c) ∧
        ∃ tail, (tail = [] ∨ tail = [10]) ∧
          (tail = [] ↔
            ∃ pre, exampleEnv.sprintf (bytesOf "value=%d") [Value.int 42] = pre ++ [10]) ∧
          Tracef exampleEnv (bytesOf "value=%d") [Value.int 42] verboseState
            = some (stdPrint [Value.str (bytesOf "[" ++ decimal 7 ++ bytesOf "] "
                ++ bytesOf "main.doWork" ++ bytesOf "(): "
                ++ exampleEnv.sprintf (bytesOf "value=%d") [Value.int 42] ++ tail)]
                verboseState)) :=
  ⟨rfl, rfl, by decide, by decide, by decide, Or.inl rfl, by decide, by decide,
    Tracef_prints_base_of_caller exampleEnv (bytesOf "value=%d") [Value.int 42] verboseState 7
      4370052 4823361 4823909 [4824037] (bytesOf "main.doWork") [] (bytesOf "main.doWork")
      rfl rfl (by decide) (by decide) (by decide) (Or.inl rfl) (by decide) (by decide)⟩

/-- C5: for every `n < 2^64` and every remainder `r`, on the stack dump
`goroutine ` decimal(n) ` ` r the function `getGID` returns `n`; the label, the
digits and the delimiter take at most 31 bytes, so they lie inside the 64-byte
snapshot. -/
theorem getGID_reads_goroutine_id (n : Nat) (r : Bytes) (h : n < 2 ^ 64) :
    getGID (bytesOf "goroutine " ++ decimal n ++ bytesOf " " ++ r) = some n ∧
      (bytesOf "goroutine " ++ decimal n ++ bytesOf " ").length ≤ 31 := by
  have hlen := decimal_length_le n h
  constructor
  · have e : bytesOf "goroutine " ++ decimal n ++ bytesOf " " ++ r
        = goroutineLabel ++ decimal n ++ 32 :: r := by
      rw [List.append_assoc (bytesOf "goroutine " ++ decimal n)]
      rfl
    rw [e, getGID_header (decimal n) r (by omega) (space_not_mem_decimal n),
      ParseUint_decimal n h]
  · have e1 : (bytesOf "goroutine ").length = 10 := by decide
    have e2 : (bytesOf " ").length = 1 := by decide
    simp only [List.length_append, e1, e2]
    omega

/-- Witness for C5: the largest goroutine id, 2^64 - 1. -/
theorem getGID_reads_goroutine_id_witness :
    18446744073709551615 < 2 ^ 64 ∧
      (getGID (bytesOf "goroutine " ++ decimal 18446744073709551615 ++ bytesOf " "
          ++ bytesOf "[running]:\nmain.main()\n") = some 18446744073709551615 ∧
        (bytesOf "goroutine " ++ decimal 18446744073709551615 ++ bytesOf " ").length ≤ 31) :=
  ⟨by norm_num, getGID_reads_goroutine_id 18446744073709551615
    (bytesOf "[running]:\nmain.main()\n") (by norm_num)⟩

theorem exists_first_nondigit (s : Bytes) (h : ¬ ∀ x ∈ s, isDigit x) :
    ∃ pre c suf, s = pre ++ c :: suf ∧ (∀ x ∈ pre, isDigit x) ∧ ¬ isDigit c := by
  induction s with
  | nil => exact absurd (fun x hx => by simp at hx) h
  | cons a s ih =>
    by_cases ha : isDigit a
    · have hs : ¬ ∀ x ∈ s, isDigit x := by
        intro hall
        apply h
        intro x hx
        rcases List.mem_cons.mp hx with e | e
        · rw [e]
          exact ha
        · exact hall x e
      obtain ⟨pre, c, suf, e, hp, hc⟩ := ih hs
      refine ⟨a :: pre, c, suf, by rw [e]; rfl, ?_, hc⟩
      intro x hx
      rcases List.mem_cons.mp hx with e1 | e1
      · rw [e1]
        exact ha
      · exact hp x e1
    · exact ⟨[], a, s, rfl, fun x hx => by simp at hx, ha⟩

/-- Every token is a non-empty digit string below 2^64 (for which `ParseUint`
succeeds) or fails in exactly one of the two ways above. -/
theorem token_cases (tok : Bytes) :
    (tok ≠ [] ∧ (∀ x ∈ tok, isDigit x) ∧ decValue tok < 2 ^ 64 ∧
        ParseUint tok = (decValue tok, none)) ∨
      SyntaxFailure tok ∨ RangeFailure tok := by
  by_cases h0 : tok = []
  · exact Or.inr (Or.inl (Or.inl h0))
  · by_cases hall : ∀ x ∈ tok, isDigit x
    · by_cases hv : decValue tok < 2 ^ 64
      · exact Or.inl ⟨h0, hall, hv, ParseUint_digits tok h0 hall hv⟩
      · exact Or.inr (Or.inr ⟨tok, [], by simp, hall, by omega⟩)
    · obtain ⟨pre, c, suf, e, hp, hc⟩ := exists_first_nondigit tok hall
      by_cases hv : decValue pre < 2 ^ 64
      · exact Or.inr (Or.inl (Or.inr ⟨pre, c, suf, e, hp, hv, hc⟩))
      · exact Or.inr (Or.inr ⟨pre, c :: suf, e, hp, by omega⟩)

/-- C6, as stated, fails: a token that denotes 2^64 makes `getGID` return
2^64 - 1, not zero; so does a token whose digits reach 2^64 before a foreign
byte is met; and a foreign token long enough to push the delimiter out of the
64-byte snapshot makes `getGID` panic. -/
theorem getGID_overflow_is_not_zero :
    getGID (bytesOf "goroutine 18446744073709551616 [running]:\n")
        = some 18446744073709551615 ∧
      getGID (bytesOf "goroutine 99999999999999999999x [running]:\n")
        = some 18446744073709551615 ∧
      getGID (bytesOf "goroutine " ++ List.replicate 54 120 ++ bytesOf " [running]:\n")
        = none := by
  decide

/-- C6, amended: on a stack dump `goroutine ` tok ` ` rest whose token has no space
and at most 53 bytes (so the delimiter lies in the snapshot), `getGID` returns zero
when the token is empty or a non-digit is met before the digits read denote 2^64,
and returns 2^64 - 1 when a leading run of digits denotes 2^64 or more. -/
theorem getGID_of_unparseable_token (tok rest : Bytes) (hlen : tok.length ≤ 53)
    (hsp : (32 : Nat) ∉ tok) :
    (SyntaxFailure tok →
        getGID (bytesOf "goroutine " ++ tok ++ bytesOf " " ++ rest) = some 0) ∧
      (RangeFailure tok →
        getGID (bytesOf "goroutine " ++ tok ++ bytesOf " " ++ rest) = some (2 ^ 64 - 1)) := by
  have e : bytesOf "goroutine " ++ tok ++ bytesOf " " ++ rest
      = goroutineLabel ++ tok ++ 32 :: rest := by
    rw [List.append_assoc (bytesOf "goroutine " ++ tok)]
    rfl
  rw [e, getGID_header tok rest hlen hsp]
  constructor
  · rintro (h | ⟨pre, c, suf, h, hp, hv, hc⟩)
    · rw [h, ParseUint_nil]
    · rw [h, ParseUint_foreign pre suf c hp hv hc]
  · rintro ⟨pre, suf, h, hp, hv⟩
    rw [h, ParseUint_range pre suf hp hv]
    rfl

/-- Witness for C6: the token `12x` gives zero, the token `18446744073709551616`
gives 2^64 - 1. -/
theorem getGID_of_unparseable_token_witness :
    ((bytesOf "12x").length ≤ 53 ∧ (32 : Nat) ∉ bytesOf "12x" ∧ SyntaxFailure (bytesOf "12x") ∧
        getGID (bytesOf "goroutine " ++ bytesOf "12x" ++ bytesOf " " ++ bytesOf "[running]:\n")
          = some 0) ∧
      ((bytesOf "18446744073709551616").length ≤ 53 ∧
        (32 : Nat) ∉ bytesOf "18446744073709551616" ∧
        RangeFailure (bytesOf "18446744073709551616") ∧
        getGID (bytesOf "goroutine " ++ bytesOf "18446744073709551616" ++ bytesOf " "
            ++ bytesOf "[running]:\n") = some (2 ^ 64 - 1)) :=
  have hs : SyntaxFailure (bytesOf "12x") :=
    Or.inr ⟨bytesOf "12", 120, [], by decide, by decide, by decide, by decide⟩
  have hr : RangeFailure (bytesOf "18446744073709551616") :=
    ⟨bytesOf "18446744073709551616", [], by decide, by decide, by decide⟩
  ⟨⟨by decide, by decide, hs,
      (getGID_of_unparseable_token (bytesOf "12x") (bytesOf "[running]:\n") (by decide)
        (by decide)).1 hs⟩,
    ⟨by decide, by decide, hr,
      (getGID_of_unparseable_token (bytesOf "18446744073709551616") (bytesOf "[running]:\n")
        (by decide) (by decide)).2 hr⟩⟩

/-- C7, as stated, fails: on the empty stack dump, on a dump that is the bare
label, and on a dump with no space in its first 64 bytes, `bytes.IndexByte`
yields -1, the slice expression is out of range and `getGID` panics; `Tracef`
with `Verbose` true panics with it. -/
theorem getGID_panics_without_delimiter :
    getGID [] = none ∧
      getGID (bytesOf "goroutine ") = none ∧
      getGID (List.replicate 80 120) = none ∧
      IndexByte (TrimPrefix (([] : Bytes).take 64) (bytesOf "goroutine ")) 32 = -1 ∧
      Tracef { exampleEnv with stackDump := [] } (bytesOf "done") [] verboseState = none := by
  decide

/-- C7, amended: for every stack dump whose first 64 bytes, once the leading label
is removed, contain a space, the slice bound is within bounds, `getGID` returns a
value, and `Tracef` returns normally in every state. -/
theorem getGID_returns_of_delimiter (dump : Bytes)
    (h : (32 : Nat) ∈ TrimPrefix (dump.take 64) (bytesOf "goroutine ")) :
    (0 ≤ IndexByte (TrimPrefix (dump.take 64) (bytesOf "goroutine ")) 32 ∧
        IndexByte (TrimPrefix (dump.take 64) (bytesOf "goroutine ")) 32
          ≤ ((TrimPrefix (dump.take 64) (bytesOf "goroutine ")).length : Int)) ∧
      (∃ g, getGID dump = some g) ∧
      ∀ (env : Env) (format : Bytes) (v : List Value) (st : State),
        env.stackDump = dump → ∃ st1, Tracef env format v st = some st1 := by
  obtain ⟨tok, suf, e, htok⟩ := exists_first_occurrence _ 32 h
  have hg : getGID dump = some (ParseUint tok).1 := getGID_of_delimiter dump tok suf e htok
  refine ⟨?_, ⟨_, hg⟩, ?_⟩
  · rw [e, IndexByte_first tok suf 32 htok]
    simp only [List.length_append, List.length_cons]
    omega
  · intro env format v st hd
    cases hv : st.Verbose
    · exact ⟨st, by unfold Tracef; rw [hv]; rfl⟩
    · obtain ⟨tail, _, hl⟩ := traceLine_cases env format v _ (hd ▸ hg)
      exact ⟨_, Tracef_of_line env format v st _ hv hl⟩

/-- Witness for C7: a dump whose token is no number still has its delimiter. -/
theorem getGID_returns_of_delimiter_witness :
    (32 : Nat) ∈ TrimPrefix ((bytesOf "goroutine x1 [running]:\n").take 64)
        (bytesOf "goroutine ") ∧
      getGID (bytesOf "goroutine x1 [running]:\n") = some 0 ∧
      ∃ g, getGID (bytesOf "goroutine x1 [running]:\n") = some g :=
  ⟨by decide, by decide,
    (getGID_returns_of_delimiter (bytesOf "goroutine x1 [running]:\n") (by decide)).2.1⟩

theorem line_not_two_newlines (H m tail pre0 : Bytes) (htail : tail = [] ∨ tail = [10])
    (hnl : tail = [] ↔ ∃ pre, m = pre ++ [10])
    (hm : ¬ ∃ pre, m = pre ++ [10, 10])
    (h : H ++ bytesOf "(): " ++ m ++ tail = pre0 ++ [10, 10]) : False := by
  have e2 : pre0 ++ [10, 10] = (pre0 ++ [10]) ++ [10] := by simp
  rcases htail with ht | ht
  · obtain ⟨p, hp⟩ := hnl.mp ht
    rw [ht, List.append_nil, hp, ← List.append_assoc, e2] at h
    have h1 : H ++ bytesOf "(): " ++ p = pre0 ++ [10] := (List.append_inj' h rfl).1
    rcases append_ends _ p pre0 10 h1 with ⟨_, hH⟩ | ⟨p1, hp1⟩
    · exact header_not_newline H pre0 hH
    · exact hm ⟨p1, by rw [hp, hp1]; simp⟩
  · have hno : ¬ ∃ pre, m = pre ++ [10] := fun hex => by
      have := hnl.mpr hex
      rw [ht] at this
      exact absurd this (by decide)
    rw [ht, e2] at h
    have h1 : H ++ bytesOf "(): " ++ m = pre0 ++ [10] := (List.append_inj' h rfl).1
    rcases append_ends _ m pre0 10 h1 with ⟨_, hH⟩ | hex
    · exact header_not_newline H pre0 hH
    · exact hno hex

/-- C8, as stated, fails: for the format `done\n\n` (no arguments, so the message
is the format) the emitted line is `[7] main.doWork(): done\n\n`: its last byte is
a newline and so is the byte before it. -/
theorem Tracef_keeps_double_newline :
    exampleEnv.sprintf (bytesOf "done\n\n") [] = bytesOf "done\n\n" ∧
      traceLine exampleEnv (bytesOf "done\n\n") []
        = some (bytesOf "[7] main.doWork(): done\n" ++ [10]) ∧
      Tracef exampleEnv (bytesOf "done\n\n") [] stderrState
        = some (fprintStderr (bytesOf "[7] main.doWork(): done\n\n") stderrState) := by
  decide

/-- C8, amended: with `Verbose` true the line `Tracef` emits is the header, the
formatted message unchanged, and a tail that is empty exactly when the message
ends in a newline and is one newline otherwise (a newline is appended only when
missing, none is removed).  So the line ends in a newline, and the byte before
that newline is not a newline unless the message itself ends in two newlines.
The messages `done` and `done\n` both give the line that ends in `done\n`. -/
theorem Tracef_line_ends_in_newline (env : Env) (format : Bytes) (v : List Value) (g : Nat)
    (hg : getGID env.stackDump = some g) :
    (∃ tail line,
        line = bytesOf "[" ++ decimal g ++ bytesOf "] " ++ Base env.callerName
          ++ bytesOf "(): " ++ env.sprintf format v ++ tail ∧
        (tail = [] ↔ ∃ pre, env.sprintf format v = pre ++ [10]) ∧
        (tail = [10] ↔ ¬ ∃ pre, env.sprintf format v = pre ++ [10]) ∧
        traceLine env format v = some line ∧ (∃ pre, line = pre ++ [10]) ∧
        ((¬ ∃ pre, env.sprintf format v = pre ++ [10, 10]) → ¬ ∃ pre, line = pre ++ [10, 10]) ∧
        ((∃ pre, env.sprintf format v = pre ++ [10, 10]) → ∃ pre, line = pre ++ [10, 10]) ∧
        ∀ st : State, st.Verbose = true →
          Tracef env format v st
            = some (if st.TraceToStderr then fprintStderr line st
                else stdPrint [Value.str line] st)) ∧
      ((env.sprintf format v = bytesOf "done" ∨ env.sprintf format v = bytesOf "done\n") →
        traceLine env format v = some (bytesOf "[" ++ decimal g ++ bytesOf "] "
          ++ Base env.callerName ++ bytesOf "(): " ++ bytesOf "done\n")) := by
  constructor
  · by_cases h : ∃ pre, env.sprintf format v = pre ++ [10]
    · have hl := traceLine_of_newline env format v g hg h
      refine ⟨[], _, rfl, ⟨fun _ => h, fun _ => rfl⟩,
        ⟨fun e => absurd e (by decide), fun e => absurd h e⟩, ?_, ?_, ?_, ?_, ?_⟩
      · rw [List.append_nil]
        exact hl
      · obtain ⟨p, hp⟩ := h
        exact ⟨bytesOf "[" ++ decimal g ++ bytesOf "] " ++ Base env.callerName
          ++ bytesOf "(): " ++ p, by rw [hp]; simp only [List.append_assoc, List.append_nil]⟩
      · rintro hm ⟨pre0, h0⟩
        exact line_not_two_newlines (bytesOf "[" ++ decimal g ++ bytesOf "] "
          ++ Base env.callerName) (env.sprintf format v) [] pre0 (Or.inl rfl)
          ⟨fun _ => h, fun _ => rfl⟩ hm h0
      · rintro ⟨p, hp⟩
        exact ⟨bytesOf "[" ++ decimal g ++ bytesOf "] " ++ Base env.callerName
          ++ bytesOf "(): " ++ p, by rw [hp]; simp only [List.append_assoc, List.append_nil]⟩
      · intro st hv
        refine Tracef_of_line env format v st _ hv ?_
        rw [List.append_nil]
        exact hl
    · have hl := traceLine_of_no_newline env format v g hg h
      refine ⟨[10], _, rfl, ⟨fun e => absurd e (by decide), fun e => absurd e h⟩,
        ⟨fun _ => h, fun _ => rfl⟩, hl, ⟨_, rfl⟩, ?_, ?_,
        fun st hv => Tracef_of_line env format v st _ hv hl⟩
      · rintro hm ⟨pre0, h0⟩
        exact line_not_two_newlines (bytesOf "[" ++ decimal g ++ bytesOf "] "
          ++ Base env.callerName) (env.sprintf format v) [10] pre0 (Or.inr rfl)
          ⟨fun e => absurd e (by decide), fun e => absurd e h⟩ hm h0
      · rintro ⟨p, hp⟩
        exact absurd ⟨p ++ [10], by rw [hp]; simp⟩ h
  · rintro (hm | hm)
    · have hno : ¬ ∃ pre, env.sprintf format v = pre ++ [10] := by
        rw [hm]
        exact (lastByte_test (bytesOf "done")).mp (by decide)
      rw [traceLine_of_no_newline env format v g hg hno, hm]
      have : bytesOf "done\n" = bytesOf "done" ++ [10] := by decide
      rw [this, ← List.append_assoc]
    · have hyes : ∃ pre, env.sprintf format v = pre ++ [10] :=
        ⟨bytesOf "done", by rw [hm]; decide⟩
      rw [traceLine_of_newline env format v g hg hyes, hm]

/-- Witness for C8: the message `done`. -/
theorem Tracef_line_ends_in_newline_witness :
    getGID exampleEnv.stackDump = some 7 ∧
      exampleEnv.sprintf (bytesOf "done") [] = bytesOf "done" ∧
      traceLine exampleEnv (bytesOf "done") []
        = some (bytesOf "[" ++ decimal 7 ++ bytesOf "] " ++ Base exampleEnv.callerName
            ++ bytesOf "(): " ++ bytesOf "done\n") :=
  ⟨by decide, by decide,
    (Tracef_line_ends_in_newline exampleEnv (bytesOf "done") [] 7 (by decide)).2
      (Or.inl (by decide))⟩

/-- C9: each of `Print`, `Printf`, `Println`, `Fatal`, `Fatalf` of the package has,
in every state and for every argument list, the effect of the standard logger's
operation of the same name on the same arguments: one call with exactly these
arguments reaches the standard logger whatever `Verbose` and `TraceToStderr`
are, the package writes nothing to the standard error stream itself, and both
flags keep their values. -/
theorem passthrough_is_standard_logger (op : Op) (format : Bytes) (v : List Value) (st : State) :
    op.callPackage format v st = op.callStandard format v st ∧
      (op.callPackage format v st).stdlog = st.stdlog ++ [op.logCall format v] ∧
      (op.callPackage format v st).stderr = st.stderr ∧
      (op.callPackage format v st).Verbose = st.Verbose ∧
      (op.callPackage format v st).TraceToStderr = st.TraceToStderr := by
  cases op <;> exact ⟨rfl, rfl, rfl, rfl, rfl⟩

/-- C10: two stack dumps of the same goroutine, which share the header
`goroutine ` decimal(n) ` ` with `n < 2^64` and differ in any way after it, make
`getGID` return the same identifier, namely `n`. -/
theorem getGID_stable_across_dumps (n : Nat) (r1 r2 : Bytes) (h : n < 2 ^ 64) :
    getGID (bytesOf "goroutine " ++ decimal n ++ bytesOf " " ++ r1)
        = getGID (bytesOf "goroutine " ++ decimal n ++ bytesOf " " ++ r2) ∧
      ∃ g, getGID (bytesOf "goroutine " ++ decimal n ++ bytesOf " " ++ r1) = some g := by
  have hlen := decimal_length_le n h
  have e : ∀ r : Bytes, getGID (bytesOf "goroutine " ++ decimal n ++ bytesOf " " ++ r)
      = some (ParseUint (decimal n)).1 := by
    intro r
    have e1 : bytesOf "goroutine " ++ decimal n ++ bytesOf " " ++ r
        = goroutineLabel ++ decimal n ++ 32 :: r := by
      rw [List.append_assoc (bytesOf "goroutine " ++ decimal n)]
      rfl
    rw [e1, getGID_header (decimal n) r (by omega) (space_not_mem_decimal n)]
  exact ⟨by rw [e r1, e r2], _, e r1⟩

/-- Witness for C10: goroutine 42, running and later blocked on a channel. -/
theorem getGID_stable_across_dumps_witness :
    42 < 2 ^ 64 ∧
      (getGID (bytesOf "goroutine " ++ decimal 42 ++ bytesOf " " ++ bytesOf "[running]:\n")
          = getGID (bytesOf "goroutine " ++ decimal 42 ++ bytesOf " "
              ++ bytesOf "[chan receive]:\nmain.worker(0xc000012345)\n\t/src/app/worker.go:88\n") ∧
        ∃ g, getGID (bytesOf "goroutine " ++ decimal 42 ++ bytesOf " "
          ++ bytesOf "[running]:\n") = some g) :=
  ⟨by norm_num, getGID_stable_across_dumps 42 (bytesOf "[running]:\n")
    (bytesOf "[chan receive]:\nmain.worker(0xc000012345)\n\t/src/app/worker.go:88\n")
    (by norm_num)⟩

end GoLog
